import Mathlib

/-!
Verification of the surname-MLP pipeline (chapter 4.2 notebook):
vocabulary management, vectorization, dataset splitting/batching,
the checkpoint/early-stopping train-state machine, and top-k inference.
The numeric tensor/autodiff engine (matrix ops, softmax values) is an
external collaborator; its outputs are abstracted as rational vectors.
Python exceptions (`KeyError`, `IndexError`, unpacking errors) are
modelled by `Option`, with `none` standing for a raised exception.
-/

namespace SurnameMLP

/-- The `Vocabulary` class: a bidirectional token↔index map with optional
unknown-token fallback.  Python dicts are modelled as insertion-ordered
association lists with unique keys (all operations below preserve key
uniqueness exactly as the Python code does). -/
structure Vocabulary where
  token_to_idx : List (String × Nat)
  idx_to_token : List (Nat × String)
  add_unk : Bool
  unk_token : String
  unk_index : Int
  deriving DecidableEq, Repr

/-- `Vocabulary.add_token`: returns the existing index on a repeat add,
otherwise assigns `len(token_to_idx)` as the new index and registers the
token in both directions. -/
def Vocabulary.add_token (v : Vocabulary) (token : String) : Vocabulary × Nat :=
  match v.token_to_idx.lookup token with
  | some index => (v, index)
  | none =>
    let index := v.token_to_idx.length
    ({ v with
        token_to_idx := v.token_to_idx ++ [(token, index)]
        idx_to_token := v.idx_to_token ++ [(index, token)] }, index)

/-- `Vocabulary.__init__`.  The source rebuilds the inverse map with
`{id: token for token, idx in self._token_to_idx.items()}`, keying every
entry on the Python builtin function `id` (not the integer `idx`), so the
rebuilt dict contains no integer key at all; as a map from integer
indices it is therefore empty, which is what we model.  (When
`token_to_idx` is empty — the fresh-construction path — the comprehension
is empty anyway, so the model is exact in both cases.) -/
def Vocabulary.init (token_to_idx : List (String × Nat) := [])
    (add_unk : Bool := true) (unk_token : String := "<UNK>") : Vocabulary :=
  let v0 : Vocabulary :=
    { token_to_idx := token_to_idx
      idx_to_token := []
      add_unk := add_unk
      unk_token := unk_token
      unk_index := -1 }
  if add_unk then
    let p := v0.add_token unk_token
    { p.1 with unk_index := (p.2 : Int) }
  else
    v0

/-- The record emitted by `Vocabulary.to_serializable`: the forward map
plus the two flags.  The inverse map is not serialized. -/
structure VocabRecord where
  token_to_idx : List (String × Nat)
  add_unk : Bool
  unk_token : String
  deriving DecidableEq, Repr

def Vocabulary.to_serializable (v : Vocabulary) : VocabRecord :=
  { token_to_idx := v.token_to_idx, add_unk := v.add_unk, unk_token := v.unk_token }

/-- `Vocabulary.from_serializable`: invokes the constructor on the record's
fields (`cls(**contents)`). -/
def Vocabulary.from_serializable (contents : VocabRecord) : Vocabulary :=
  Vocabulary.init contents.token_to_idx contents.add_unk contents.unk_token

/-- `Vocabulary.add_many`: applies `add_token` per element, in order,
collecting the returned indices. -/
def Vocabulary.add_many (v : Vocabulary) (tokens : List String) :
    Vocabulary × List Nat :=
  tokens.foldl (fun (acc : Vocabulary × List Nat) t =>
    let p := acc.1.add_token t
    (p.1, acc.2 ++ [p.2])) (v, [])

/-- `Vocabulary.lookup_token`: when `unk_index >= 0` a dict miss falls back
to the unknown index (`dict.get(token, unk_index)`); otherwise a miss
raises `KeyError` (modelled as `none`). -/
def Vocabulary.lookup_token (v : Vocabulary) (token : String) : Option Int :=
  if v.unk_index ≥ 0 then
    some (((v.token_to_idx.lookup token).map (Int.ofNat)).getD v.unk_index)
  else
    (v.token_to_idx.lookup token).map Int.ofNat

/-- `Vocabulary.lookup_index`: raises `KeyError` (modelled as `none`) when
the index is not a key of the inverse map. -/
def Vocabulary.lookup_index (v : Vocabulary) (index : Nat) : Option String :=
  v.idx_to_token.lookup index

/-- `len(vocabulary)`: number of registered tokens. -/
def Vocabulary.size (v : Vocabulary) : Nat :=
  v.token_to_idx.length

/-- Folding `add_token` over a token list, keeping only the vocabulary
(the loop shape used by `SurnameVectorizer.from_dataframe`). -/
def Vocabulary.addAll (v : Vocabulary) (tokens : List String) : Vocabulary :=
  tokens.foldl (fun v t => (v.add_token t).1) v

/-! ### Canonical form of vocabularies built by `add_token` from a fresh
`Vocabulary.init []`.  The forward map is the first-seen deduplication of
the added tokens paired with positions `0, 1, …`, and the inverse map is
its exact flip. -/

/-- Forward association list of `names` with indices starting at `k`. -/
def assocFrom (k : Nat) : List String → List (String × Nat)
  | [] => []
  | t :: ts => (t, k) :: assocFrom (k + 1) ts

/-- Inverse association list of `names` with indices starting at `k`. -/
def invFrom (k : Nat) : List String → List (Nat × String)
  | [] => []
  | t :: ts => (k, t) :: invFrom (k + 1) ts

/-- One step of first-seen deduplication. -/
def dedupAppend (acc : List String) (t : String) : List String :=
  if t ∈ acc then acc else acc ++ [t]

/-- First-seen-order deduplication of a token list. -/
def dedupFirst (l : List String) : List String :=
  l.foldl dedupAppend []

/-- The vocabulary whose registered tokens are exactly `names`, in order. -/
def canon (names : List String) (a : Bool) (u : String) : Vocabulary :=
  { token_to_idx := assocFrom 0 names
    idx_to_token := invFrom 0 names
    add_unk := a
    unk_token := u
    unk_index := if a then 0 else -1 }

/-- The token list the fresh constructor pre-registers: the unknown symbol
when `add_unk` is set, nothing otherwise. -/
def preTokens (a : Bool) (u : String) : List String :=
  if a then [u] else []

/-! ### Train state and the checkpoint/early-stopping step -/

/-- The `train_state` dict made by `make_train_state`, plus one
instrumentation field `saved_epochs` recording the epochs at which
`torch.save(model.state_dict(), model_filename)` overwrote the checkpoint
file (the file's final content is the parameters of the last recorded
epoch). -/
structure TrainState where
  stop_early : Bool
  early_stopping_step : Nat
  early_stopping_best_val : ℚ
  learning_rate : ℚ
  epoch_index : Nat
  train_loss : List ℚ
  train_acc : List ℚ
  val_loss : List ℚ
  val_acc : List ℚ
  test_loss : ℚ
  test_acc : ℚ
  model_filename : String
  saved_epochs : List Nat
  deriving DecidableEq, Repr

/-- `make_train_state(args)`: fresh run-time record; the best-validation
sentinel is `1e8`. -/
def make_train_state (learning_rate : ℚ) (model_state_file : String) : TrainState :=
  { stop_early := false
    early_stopping_step := 0
    early_stopping_best_val := 100000000
    learning_rate := learning_rate
    epoch_index := 0
    train_loss := []
    train_acc := []
    val_loss := []
    val_acc := []
    test_loss := -1
    test_acc := -1
    model_filename := model_state_file
    saved_epochs := [] }

/-- `update_train_state(args, model, train_state)`.  Epoch 0 always saves
and clears the stop flag.  From epoch 1 on, `loss_tm1, loss_t =
val_loss[-2:]` unpacks the last two validation losses (a `ValueError`,
modelled as `none`, if fewer than two exist; `loss_tm1` is never used, as
in the source); `loss_t` is compared against `early_stopping_best_val` —
a field the source never updates after its `1e8` initialisation.  On
`loss_t >= best` the non-improvement counter increments; otherwise the
model is saved and the counter resets.  The stop flag becomes
`early_stopping_step >= early_stopping_criteria`. -/
def update_train_state (early_stopping_criteria : Nat) (train_state : TrainState) :
    Option TrainState :=
  if train_state.epoch_index = 0 then
    some { train_state with
            saved_epochs := train_state.saved_epochs ++ [train_state.epoch_index]
            stop_early := false }
  else
    match train_state.val_loss.reverse with
    | loss_t :: _loss_tm1 :: _ =>
      let ts1 :=
        if loss_t ≥ train_state.early_stopping_best_val then
          { train_state with
              early_stopping_step := train_state.early_stopping_step + 1 }
        else
          let ts' :=
            if loss_t < train_state.early_stopping_best_val then
              { train_state with
                  saved_epochs := train_state.saved_epochs ++ [train_state.epoch_index] }
            else
              train_state
          { ts' with early_stopping_step := 0 }
      some { ts1 with
              stop_early := decide (early_stopping_criteria ≤ ts1.early_stopping_step) }
    | _ => none

/-- The epoch loop's checkpoint/early-stopping skeleton: per epoch the
loop sets `epoch_index`, appends the epoch's validation loss (the output
of the train/validation phases, abstracted here as the given sequence),
calls `update_train_state`, and breaks when `stop_early` is set. -/
def run_epochs (early_stopping_criteria : Nat) :
    List ℚ → Nat → TrainState → Option TrainState
  | [], _, train_state => some train_state
  | l :: rest, epoch_index, train_state =>
    let ts1 := { train_state with
                  epoch_index := epoch_index
                  val_loss := train_state.val_loss ++ [l] }
    match update_train_state early_stopping_criteria ts1 with
    | none => none
    | some ts2 =>
      if ts2.stop_early then some ts2
      else run_epochs early_stopping_criteria rest (epoch_index + 1) ts2

/-! ### Vectorizer, dataset, and inference -/

/-- One labeled corpus row: `{surname, nationality, split}`. -/
structure Row where
  surname : String
  nationality : String
  split : String
  deriving DecidableEq, Repr

/-- `SurnameVectorizer`: the two vocabularies. -/
structure SurnameVectorizer where
  surname_vocab : Vocabulary
  nationality_vocab : Vocabulary
  deriving DecidableEq, Repr

/-- `SurnameVectorizer.vectorize(surname)`: a zero vector of length
`len(surname_vocab)` with the position `lookup_token(character)` set to
`1` for every character of the input.  A `KeyError` from `lookup_token`
propagates (`none`), as does numpy's error on an out-of-range
assignment; `lookup_token` only ever yields nonnegative indices, so the
sign test cannot fire on its own. -/
def SurnameVectorizer.vectorize (vec : SurnameVectorizer) (surname : String) :
    Option (List ℚ) :=
  surname.toList.foldlM
    (fun one_hot c =>
      match vec.surname_vocab.lookup_token (String.singleton c) with
      | none => none
      | some i =>
        if 0 ≤ i ∧ i.toNat < one_hot.length then
          some (one_hot.set i.toNat 1)
        else
          none)
    (List.replicate vec.surname_vocab.size 0)

/-- `SurnameVectorizer.from_dataframe(surname_df)`: registers every letter
of every row's surname into a fresh character vocabulary (unknown symbol
`"@"`, unknown-token support on by default) and every row's nationality
into a fresh label vocabulary without unknown-token support. -/
def SurnameVectorizer.from_dataframe (surname_df : List Row) : SurnameVectorizer :=
  let start : Vocabulary × Vocabulary :=
    (Vocabulary.init [] true "@", Vocabulary.init [] false "<UNK>")
  let p := surname_df.foldl
    (fun (vs : Vocabulary × Vocabulary) row =>
      (vs.1.addAll (row.surname.toList.map String.singleton),
       (vs.2.add_token row.nationality).1))
    start
  { surname_vocab := p.1, nationality_vocab := p.2 }

/-- `surname_df.nationality.value_counts().to_dict()`: every distinct
nationality with its number of occurrences in the whole collection.
Pandas lists them in count-descending order; the constructor immediately
re-sorts the pairs by a key that is injective on them, so the order here
(first-seen) is immaterial, and nothing proved below depends on it. -/
def value_counts (labels : List String) : List (String × Nat) :=
  (dedupFirst labels).map (fun t => (t, labels.count t))

/-- `SurnameDataset`: the full row collection, its three split views, the
current-split selector, and the derived class weights. -/
structure SurnameDataset where
  surname_df : List Row
  vectorizer : SurnameVectorizer
  train_df : List Row
  train_size : Nat
  val_df : List Row
  validation_size : Nat
  test_df : List Row
  test_size : Nat
  target_split : String
  target_df : List Row
  target_size : Nat
  class_weights : List ℚ
  deriving DecidableEq, Repr

/-- `_lookup_dict[split]`: the split-name → (view, size) mapping; a miss
is a `KeyError` (`none`). -/
def SurnameDataset.lookup_dict (ds : SurnameDataset) (split : String) :
    Option (List Row × Nat) :=
  if split = "train" then some (ds.train_df, ds.train_size)
  else if split = "val" then some (ds.val_df, ds.validation_size)
  else if split = "test" then some (ds.test_df, ds.test_size)
  else none

/-- `set_split(split="train")`. -/
def SurnameDataset.set_split (ds : SurnameDataset) (split : String := "train") :
    Option SurnameDataset :=
  match ds.lookup_dict split with
  | none => none
  | some p =>
    some { ds with target_split := split, target_df := p.1, target_size := p.2 }

/-- `SurnameDataset.__init__(surname_df, vectorizer)`: filters the three
split views, selects the train split, and computes
`class_weights = 1.0 / frequencies` where the label counts of the whole
collection are sorted by `nationality_vocab.lookup_token(label)` (a
`KeyError` — a nationality absent from the vocabulary — aborts
construction, modelled by `none`).  Python's `sorted` with a key function
is modelled by pairing each item with its precomputed key and sorting by
that key; the keys are pairwise distinct whenever all lookups succeed, so
stability of ties cannot matter. -/
def SurnameDataset.init (surname_df : List Row) (vectorizer : SurnameVectorizer) :
    Option SurnameDataset :=
  let train_df := surname_df.filter (fun r => r.split == "train")
  let val_df := surname_df.filter (fun r => r.split == "val")
  let test_df := surname_df.filter (fun r => r.split == "test")
  let class_counts := value_counts (surname_df.map (fun r => r.nationality))
  match class_counts.mapM (fun item =>
      (vectorizer.nationality_vocab.lookup_token item.1).map (fun key => (key, item))) with
  | none => none
  | some keyed =>
    let sorted_counts := (keyed.insertionSort (fun x y => x.1 ≤ y.1)).map (fun p => p.2)
    let frequencies := sorted_counts.map (fun p => p.2)
    let class_weights := frequencies.map (fun count : Nat => 1 / (count : ℚ))
    some { surname_df := surname_df
           vectorizer := vectorizer
           train_df := train_df
           train_size := train_df.length
           val_df := val_df
           validation_size := val_df.length
           test_df := test_df
           test_size := test_df.length
           target_split := "train"
           target_df := train_df
           target_size := train_df.length
           class_weights := class_weights }

/-- `load_dataset_and_make_vectorizer`: builds the vectorizer from the
train split only and the dataset from the full collection (the CSV loader
is an external collaborator; its output is the row list). -/
def load_dataset_and_make_vectorizer (surname_df : List Row) :
    Option SurnameDataset :=
  let train_surname_df := surname_df.filter (fun r => r.split == "train")
  SurnameDataset.init surname_df (SurnameVectorizer.from_dataframe train_surname_df)

/-- `len(dataset)`: the active split's size. -/
def SurnameDataset.len (ds : SurnameDataset) : Nat :=
  ds.target_size

/-- `dataset[index]`: vectorizes the row's surname and looks up its
nationality index; `iloc` raises (`none`) on an out-of-range index. -/
def SurnameDataset.getitem (ds : SurnameDataset) (index : Nat) :
    Option (List ℚ × Int) :=
  match ds.target_df[index]? with
  | none => none
  | some row =>
    match ds.vectorizer.vectorize row.surname with
    | none => none
    | some x_surname =>
      match ds.vectorizer.nationality_vocab.lookup_token row.nationality with
      | none => none
      | some y_nationality => some (x_surname, y_nationality)

/-- `get_num_batches(batch_size) = len(self) // batch_size`. -/
def SurnameDataset.get_num_batches (ds : SurnameDataset) (batch_size : Nat) : Nat :=
  ds.len / batch_size

/-- `torch.topk(prediction_vector, k)`: the `k` largest entries paired
with their positions, in descending value order; raises (`none`) when `k`
exceeds the vector's length.  (PyTorch's tie order among equal values is
unspecified; every property proved below holds for any descending
arrangement.) -/
def topk (k : Nat) (values : List ℚ) : Option (List (ℚ × Nat)) :=
  if k ≤ values.length then
    some (((values.enum.map (fun p => (p.2, p.1))).insertionSort
        (fun x y => y.1 ≤ x.1)).take k)
  else
    none

/-- `predict_topk_nationality(name, classifier, vectorizer, k)`: the
classifier-with-softmax output on the vectorized name is produced by the
external tensor engine and abstracted as `prediction_vector` (its length
is the classifier's configured output width, `len(nationality_vocab)`);
each top-k entry's position is resolved through
`nationality_vocab.lookup_index`. -/
def predict_topk_nationality (vectorizer : SurnameVectorizer)
    (prediction_vector : List ℚ) (k : Nat) : Option (List (String × ℚ)) :=
  match topk k prediction_vector with
  | none => none
  | some pairs =>
    pairs.mapM (fun p =>
      (vectorizer.nationality_vocab.lookup_index p.2).map
        (fun nationality => (nationality, p.1)))

/-- The notebook's top-k inference cell: `k` is clamped to
`len(nationality_vocab)` before `predict_topk_nationality` is called. -/
def predict_topk_clamped (vectorizer : SurnameVectorizer)
    (prediction_vector : List ℚ) (k : Nat) : Option (List (String × ℚ)) :=
  let kc := if k > vectorizer.nationality_vocab.size
            then vectorizer.nationality_vocab.size else k
  predict_topk_nationality vectorizer prediction_vector kc

/-- A vocabulary reachable in the notebook: a fresh constructor call
followed by a stream of `add_token` calls (the only way both the surname
and the nationality vocabularies are built in
`SurnameVectorizer.from_dataframe`). -/
def buildVocab (a : Bool) (u : String) (ts : List String) : Vocabulary :=
  (Vocabulary.init [] a u).addAll ts

/-- The character tokens `from_dataframe` streams into the surname
vocabulary: every letter of every row's surname, in row order (Python
iterates a string into length-1 strings). -/
def lettersOf (df : List Row) : List String :=
  (df.map (fun r => r.surname.toList.map String.singleton)).flatten

/-- The label tokens `from_dataframe` streams into the nationality
vocabulary: every row's nationality, in row order. -/
def natsOf (df : List Row) : List String :=
  df.map (fun r => r.nationality)

instance : IsTotal (ℚ × Nat) (fun x y => y.1 ≤ x.1) :=
  ⟨fun a b => le_total b.1 a.1⟩

instance : IsTrans (ℚ × Nat) (fun x y => y.1 ≤ x.1) :=
  ⟨fun _ _ _ hab hbc => le_trans hbc hab⟩

instance : IsTotal (Int × (String × Nat)) (fun x y => x.1 ≤ y.1) :=
  ⟨fun a b => le_total a.1 b.1⟩

instance : IsTrans (Int × (String × Nat)) (fun x y => x.1 ≤ y.1) :=
  ⟨fun _ _ _ hab hbc => le_trans hab hbc⟩

@[simp] theorem assocFrom_nil (k : Nat) : assocFrom k [] = [] := rfl

@[simp] theorem assocFrom_cons (k : Nat) (t : String) (ts : List String) :
    assocFrom k (t :: ts) = (t, k) :: assocFrom (k + 1) ts := rfl

@[simp] theorem invFrom_nil (k : Nat) : invFrom k [] = [] := rfl

@[simp] theorem invFrom_cons (k : Nat) (t : String) (ts : List String) :
    invFrom k (t :: ts) = (k, t) :: invFrom (k + 1) ts := rfl

@[simp] theorem length_assocFrom (k : Nat) (l : List String) :
    (assocFrom k l).length = l.length := by
  induction l generalizing k with
  | nil => rfl
  | cons t ts ih => simp [assocFrom, ih]

theorem assocFrom_append (k : Nat) (l₁ l₂ : List String) :
    assocFrom k (l₁ ++ l₂) = assocFrom k l₁ ++ assocFrom (k + l₁.length) l₂ := by
  induction l₁ generalizing k with
  | nil => simp
  | cons t ts ih =>
    simp only [List.cons_append, assocFrom_cons, ih, List.length_cons]
    ring_nf

theorem invFrom_append (k : Nat) (l₁ l₂ : List String) :
    invFrom k (l₁ ++ l₂) = invFrom k l₁ ++ invFrom (k + l₁.length) l₂ := by
  induction l₁ generalizing k with
  | nil => simp
  | cons t ts ih =>
    simp only [List.cons_append, invFrom_cons, ih, List.length_cons]
    ring_nf

theorem lookup_assocFrom (k : Nat) (l : List String) (t : String) :
    (assocFrom k l).lookup t =
      if t ∈ l then some (l.indexOf t + k) else none := by
  induction l generalizing k with
  | nil => simp [List.lookup]
  | cons b bs ih =>
    by_cases hb : t = b
    · subst hb
      simp [List.lookup, List.indexOf_cons_self]
    · have hbeq : (t == b) = false := beq_false_of_ne hb
      simp only [assocFrom_cons, List.lookup, hbeq, ih]
      by_cases hmem : t ∈ bs
      · simp [hmem, hb, List.indexOf_cons_ne _ (fun h => hb h.symm)]
        omega
      · simp [hmem, hb]

theorem lookup_invFrom (k : Nat) (l : List String) (i : Nat) :
    (invFrom k l).lookup i =
      if k ≤ i then l[i - k]? else none := by
  induction l generalizing k with
  | nil => simp [List.lookup]
  | cons b bs ih =>
    simp only [invFrom_cons, List.lookup]
    by_cases hik : i = k
    · subst hik
      simp
    · have hbeq : (i == k) = false := beq_false_of_ne hik
      simp only [hbeq, ih]
      by_cases hle : k + 1 ≤ i
      · have h1 : k ≤ i := by omega
        have h2 : i - k = (i - (k + 1)) + 1 := by omega
        simp [hle, h1, h2]
      · have h1 : ¬ (k ≤ i) := by omega
        simp [hle, h1]

theorem dedupAppend_mem (acc : List String) (t s : String) :
    s ∈ dedupAppend acc t ↔ s ∈ acc ∨ s = t := by
  unfold dedupAppend
  by_cases h : t ∈ acc
  · simp only [if_pos h]
    constructor
    · exact fun hs => Or.inl hs
    · rintro (hs | rfl)
      · exact hs
      · exact h
  · simp [if_neg h]

theorem dedupAppend_nodup {acc : List String} (h : acc.Nodup) (t : String) :
    (dedupAppend acc t).Nodup := by
  unfold dedupAppend
  by_cases ht : t ∈ acc
  · simpa [ht]
  · simp only [if_neg ht, List.nodup_append, h, true_and]
    refine ⟨List.nodup_singleton t, ?_⟩
    intro a ha hb
    rw [List.mem_singleton] at hb
    subst hb
    exact ht ha

theorem foldl_dedupAppend_mem (l : List String) :
    ∀ (acc : List String) (s : String),
      s ∈ l.foldl dedupAppend acc ↔ s ∈ acc ∨ s ∈ l := by
  induction l with
  | nil => simp
  | cons t ts ih =>
    intro acc s
    simp only [List.foldl_cons, ih, dedupAppend_mem, List.mem_cons]
    tauto

theorem foldl_dedupAppend_nodup (l : List String) :
    ∀ {acc : List String}, acc.Nodup → (l.foldl dedupAppend acc).Nodup := by
  induction l with
  | nil => exact fun h => h
  | cons t ts ih =>
    intro acc h
    exact ih (dedupAppend_nodup h t)

theorem mem_dedupFirst (l : List String) (s : String) :
    s ∈ dedupFirst l ↔ s ∈ l := by
  simp [dedupFirst, foldl_dedupAppend_mem]

theorem nodup_dedupFirst (l : List String) : (dedupFirst l).Nodup :=
  foldl_dedupAppend_nodup l List.nodup_nil

/-- `add_token` on a canonical vocabulary: the returned index is the
position of the token (existing position on a hit, the fresh position
`names.length` on a miss), and the vocabulary stays canonical with the
token appended on first sight. -/
theorem add_token_canon (names : List String) (a : Bool) (u t : String) :
    (canon names a u).add_token t =
      (canon (dedupAppend names t) a u,
       if t ∈ names then names.indexOf t else names.length) := by
  unfold Vocabulary.add_token canon dedupAppend
  simp only [lookup_assocFrom]
  by_cases h : t ∈ names
  · simp [h]
  · simp only [h, if_neg, if_false, reduceCtorEq]
    simp [assocFrom_append, invFrom_append, length_assocFrom]

theorem addAll_canon (ts : List String) :
    ∀ (names : List String) (a : Bool) (u : String),
      (canon names a u).addAll ts = canon (ts.foldl dedupAppend names) a u := by
  induction ts with
  | nil => intro names a u; rfl
  | cons t rest ih =>
    intro names a u
    show Vocabulary.addAll _ (t :: rest) = _
    unfold Vocabulary.addAll
    simp only [List.foldl_cons]
    have h1 : ((canon names a u).add_token t).1 = canon (dedupAppend names t) a u := by
      rw [add_token_canon]
    rw [h1]
    exact ih (dedupAppend names t) a u

/-- A fresh `Vocabulary.init []` is canonical over `preTokens`. -/
theorem init_eq_canon (a : Bool) (u : String) :
    Vocabulary.init [] a u = canon (preTokens a u) a u := by
  cases a with
  | false => rfl
  | true => rfl

/-- Every vocabulary reachable by streaming tokens into a fresh
`Vocabulary.init []` is the canonical vocabulary over the first-seen
deduplication of `preTokens ++ tokens`. -/
theorem addAll_init_eq_canon (a : Bool) (u : String) (ts : List String) :
    (Vocabulary.init [] a u).addAll ts =
      canon (dedupFirst (preTokens a u ++ ts)) a u := by
  rw [init_eq_canon]
  have h : dedupFirst (preTokens a u ++ ts) =
      ts.foldl dedupAppend (preTokens a u) := by
    unfold dedupFirst
    rw [List.foldl_append]
    congr 1
    cases a with
    | false => rfl
    | true => rfl
  rw [h, addAll_canon]

@[simp] theorem canon_size (names : List String) (a : Bool) (u : String) :
    (canon names a u).size = names.length := by
  simp [canon, Vocabulary.size]

@[simp] theorem canon_unk_index (names : List String) (a : Bool) (u : String) :
    (canon names a u).unk_index = if a then 0 else -1 := rfl

theorem lookup_forward_canon (names : List String) (a : Bool) (u t : String) :
    (canon names a u).token_to_idx.lookup t =
      if t ∈ names then some (names.indexOf t) else none := by
  show (assocFrom 0 names).lookup t = _
  rw [lookup_assocFrom]
  simp

theorem lookup_token_canon_unk (names : List String) (u t : String) :
    (canon names true u).lookup_token t =
      some (if t ∈ names then (names.indexOf t : Int) else 0) := by
  unfold Vocabulary.lookup_token
  rw [lookup_forward_canon]
  by_cases h : t ∈ names <;> simp [h, canon]

theorem lookup_token_canon_nounk (names : List String) (u t : String) :
    (canon names false u).lookup_token t =
      if t ∈ names then some (names.indexOf t : Int) else none := by
  unfold Vocabulary.lookup_token
  rw [lookup_forward_canon]
  by_cases h : t ∈ names <;> simp [h, canon]

theorem lookup_index_canon (names : List String) (a : Bool) (u : String) (i : Nat) :
    (canon names a u).lookup_index i = names[i]? := by
  show (invFrom 0 names).lookup i = _
  rw [lookup_invFrom]
  simp

/-! ### `add_token` facts on arbitrary vocabularies -/

theorem lookup_append_of_none {l₁ l₂ : List (String × Nat)} {t : String}
    (h : l₁.lookup t = none) : (l₁ ++ l₂).lookup t = l₂.lookup t := by
  induction l₁ with
  | nil => simp
  | cons p ps ih =>
    simp only [List.cons_append, List.lookup] at h ⊢
    cases hbeq : (t == p.1) with
    | true => simp [hbeq] at h
    | false => simp only [hbeq] at h ⊢; exact ih h

theorem add_token_lookup_self (v : Vocabulary) (t : String) :
    ((v.add_token t).1.token_to_idx).lookup t = some (v.add_token t).2 := by
  unfold Vocabulary.add_token
  cases h : v.token_to_idx.lookup t with
  | some i => simp [h]
  | none =>
    simp only [h]
    rw [lookup_append_of_none h]
    simp [List.lookup]

theorem add_token_preserves_flags (v : Vocabulary) (t : String) :
    (v.add_token t).1.unk_index = v.unk_index ∧
      (v.add_token t).1.add_unk = v.add_unk := by
  unfold Vocabulary.add_token
  cases h : v.token_to_idx.lookup t <;> simp [h]

/-! ### Dataset construction facts -/

theorem init_fields {df : List Row} {vec : SurnameVectorizer} {ds : SurnameDataset}
    (h : SurnameDataset.init df vec = some ds) :
    ds.surname_df = df ∧ ds.vectorizer = vec ∧
    ds.train_df = df.filter (fun r => r.split == "train") ∧
    ds.train_size = (df.filter (fun r => r.split == "train")).length ∧
    ds.val_df = df.filter (fun r => r.split == "val") ∧
    ds.validation_size = (df.filter (fun r => r.split == "val")).length ∧
    ds.test_df = df.filter (fun r => r.split == "test") ∧
    ds.test_size = (df.filter (fun r => r.split == "test")).length ∧
    ds.target_split = "train" ∧
    ds.target_df = df.filter (fun r => r.split == "train") ∧
    ds.target_size = (df.filter (fun r => r.split == "train")).length := by
  simp only [SurnameDataset.init] at h
  split at h
  · exact absurd h (by simp)
  · rw [Option.some_inj] at h
    subst h
    repeat' constructor

theorem set_split_cases {ds ds' : SurnameDataset} {name : String}
    (h : ds.set_split name = some ds') :
    (name = "train" ∧ ds' = { ds with target_split := name, target_df := ds.train_df, target_size := ds.train_size }) ∨
    (name = "val" ∧ ds' = { ds with target_split := name, target_df := ds.val_df, target_size := ds.validation_size }) ∨
    (name = "test" ∧ ds' = { ds with target_split := name, target_df := ds.test_df, target_size := ds.test_size }) := by
  unfold SurnameDataset.set_split SurnameDataset.lookup_dict at h
  split_ifs at h with h1 h2 h3 <;>
    simp only [Option.some_inj] at h
  · exact Or.inl ⟨h1, h.symm⟩
  · exact Or.inr (Or.inl ⟨h2, h.symm⟩)
  · exact Or.inr (Or.inr ⟨h3, h.symm⟩)

theorem set_split_train (ds : SurnameDataset) :
    ds.set_split "train" = some { ds with target_split := "train", target_df := ds.train_df, target_size := ds.train_size } := by
  simp [SurnameDataset.set_split, SurnameDataset.lookup_dict]

theorem set_split_val (ds : SurnameDataset) :
    ds.set_split "val" = some { ds with target_split := "val", target_df := ds.val_df, target_size := ds.validation_size } := by
  simp [SurnameDataset.set_split, SurnameDataset.lookup_dict]

/-! ### Claim theorems -/

/-- **C1** (code bug in the source): feeding the validation-loss sequence
`[1.0, 1.1, 1.2, 1.3, 1.4, 1.5]` (as exact rationals) with
`early_stopping_criteria = 5` into the checkpoint/early-stopping step,
the loop does NOT stop at epoch 5: `update_train_state` never updates
`early_stopping_best_val` after its `1e8` initialisation, so every
epoch's loss compares below the sentinel, the non-improvement counter is
reset to 0 every epoch, the stop flag is never set, and the parameters of
EVERY epoch 0–5 are persisted — not only the epoch-0 checkpoint. -/
theorem early_stopping_never_fires_on_spec_sequence :
    (run_epochs 5
        [1, mkRat 11 10, mkRat 12 10, mkRat 13 10, mkRat 14 10, mkRat 15 10] 0
        (make_train_state (mkRat 1 1000) "model.pth")).map
      (fun ts => (ts.stop_early, ts.early_stopping_step, ts.saved_epochs)) =
      some (false, 0, [0, 1, 2, 3, 4, 5]) := by
  decide

/-- **C2** (code bug in the source): the serialization round trip breaks
`lookup_index`.  For the vocabulary that registered `"a"` after its
unknown token, `lookup_index 1 = "a"`; after
`from_serializable(to_serializable(v))`, `lookup_token` still answers
(the forward map is serialized intact) but `lookup_index` raises
`KeyError` on EVERY index, because the constructor's inverse-map
comprehension keys on the builtin `id` instead of `idx`. -/
theorem roundtrip_breaks_lookup_index :
    ((Vocabulary.init [] true "<UNK>").addAll ["a"]).lookup_index 1 = some "a" ∧
    ((Vocabulary.init [] true "<UNK>").addAll ["a"]).lookup_token "a" = some 1 ∧
    (Vocabulary.from_serializable
        (((Vocabulary.init [] true "<UNK>").addAll ["a"]).to_serializable)).lookup_token
      "a" = some 1 ∧
    (Vocabulary.from_serializable
        (((Vocabulary.init [] true "<UNK>").addAll ["a"]).to_serializable)).lookup_index
      1 = none ∧
    (Vocabulary.from_serializable
        (((Vocabulary.init [] true "<UNK>").addAll ["a"]).to_serializable)).lookup_index
      0 = none := by
  refine ⟨rfl, rfl, rfl, rfl, rfl⟩

/-- **C8**: `get_num_batches(batch_size)` floor-divides the active
split's row count by the batch size (the trailing incomplete batch is
dropped), both on the freshly constructed dataset (train split active)
and after any successful `set_split`; in particular an active split of
120 rows with batch size 64 yields 1 batch and one of 128 rows yields
2. -/
theorem get_num_batches_is_floor_div
    (df : List Row) (vec : SurnameVectorizer) (ds ds' : SurnameDataset)
    (name : String) (batch_size : Nat)
    (h : SurnameDataset.init df vec = some ds)
    (h' : ds.set_split name = some ds')
    (hbs : 0 < batch_size) :
    ds.get_num_batches batch_size =
      (df.filter (fun r => r.split == "train")).length / batch_size ∧
    ds'.get_num_batches batch_size =
      (df.filter (fun r => r.split == name)).length / batch_size ∧
    (ds'.len = 120 → ds'.get_num_batches 64 = 1) ∧
    (ds'.len = 128 → ds'.get_num_batches 64 = 2) := by
  obtain ⟨-, -, -, htrs, -, hvals, -, htes, -, -, hts⟩ := init_fields h
  refine ⟨?_, ?_, ?_, ?_⟩
  · show ds.target_size / batch_size = _
    rw [hts]
  · rcases set_split_cases h' with ⟨rfl, rfl⟩ | ⟨rfl, rfl⟩ | ⟨rfl, rfl⟩
    · show ds.train_size / batch_size = _
      rw [htrs]
    · show ds.validation_size / batch_size = _
      rw [hvals]
    · show ds.test_size / batch_size = _
      rw [htes]
  · intro h120
    show ds'.target_size / 64 = 1
    rw [show ds'.target_size = ds'.len from rfl, h120]
  · intro h128
    show ds'.target_size / 64 = 2
    rw [show ds'.target_size = ds'.len from rfl, h128]

set_option maxRecDepth 10000 in
/-- `get_num_batches_is_floor_div` at a concrete corpus of 120 train rows
and 128 val rows: 1 train batch and 2 val batches of size 64. -/
theorem get_num_batches_is_floor_div_witness :
    ((load_dataset_and_make_vectorizer
        (List.replicate 120 ⟨"a", "X", "train"⟩ ++
         List.replicate 128 ⟨"b", "X", "val"⟩)).map
      (fun ds => ds.get_num_batches 64)) = some 1 ∧
    (((load_dataset_and_make_vectorizer
        (List.replicate 120 ⟨"a", "X", "train"⟩ ++
         List.replicate 128 ⟨"b", "X", "val"⟩)).bind
      (fun ds => ds.set_split "val")).map
        (fun ds => ds.get_num_batches 64)) = some 2 := by
  cases h : load_dataset_and_make_vectorizer
      (List.replicate 120 ⟨"a", "X", "train"⟩ ++
       List.replicate 128 ⟨"b", "X", "val"⟩) with
  | none =>
    have hs : (load_dataset_and_make_vectorizer
        (List.replicate 120 ⟨"a", "X", "train"⟩ ++
         List.replicate 128 ⟨"b", "X", "val"⟩)).isSome = true := by decide
    rw [h] at hs
    simp at hs
  | some ds =>
    have h0 : SurnameDataset.init
        (List.replicate 120 ⟨"a", "X", "train"⟩ ++
         List.replicate 128 ⟨"b", "X", "val"⟩)
        (SurnameVectorizer.from_dataframe
          ((List.replicate 120 (⟨"a", "X", "train"⟩ : Row) ++
            List.replicate 128 (⟨"b", "X", "val"⟩ : Row)).filter
            (fun r => r.split == "train"))) = some ds := h
    have main := get_num_batches_is_floor_div _ _ ds _ "val" 64 h0
      (set_split_val ds) (by decide)
    constructor
    · simp only [Option.map_some']
      rw [main.1]
      decide
    · simp only [Option.some_bind]
      rw [set_split_val ds]
      simp only [Option.map_some']
      rw [main.2.1]
      decide

/-- **C10**: immediately after `SurnameDataset.__init__` the active split
is `train` (the constructor ends with `set_split('train')`): the
selector reads `"train"`, the active view and size are the train view
and size (so `len` and `__getitem__` read the training rows until
`set_split` is called); and `set_split` invoked with no argument also
selects the train view. -/
theorem default_active_split_is_train
    (df : List Row) (vec : SurnameVectorizer) (ds : SurnameDataset)
    (h : SurnameDataset.init df vec = some ds) :
    ds.target_split = "train" ∧
    ds.target_df = ds.train_df ∧
    ds.target_size = ds.train_size ∧
    ds.len = (df.filter (fun r => r.split == "train")).length ∧
    (∀ i : Nat, ds.target_df[i]? = (df.filter (fun r => r.split == "train"))[i]?) ∧
    (∀ e : SurnameDataset,
      e.set_split = some { e with target_split := "train", target_df := e.train_df, target_size := e.train_size }) := by
  obtain ⟨-, -, htr, htrs, -, -, -, -, hsel, htd, hts⟩ := init_fields h
  refine ⟨hsel, ?_, ?_, ?_, ?_, ?_⟩
  · rw [htd, htr]
  · rw [hts, htrs]
  · show ds.target_size = _
    rw [hts]
  · intro i
    rw [htd]
  · intro e
    exact set_split_train e

/-- `default_active_split_is_train` at a concrete three-row corpus:
the fresh dataset reports split `train` and the train size 2, and a
no-argument `set_split` selects `train` again. -/
theorem default_active_split_is_train_witness :
    ((load_dataset_and_make_vectorizer
        [⟨"ab", "X", "train"⟩, ⟨"ba", "Y", "train"⟩, ⟨"a", "X", "val"⟩]).map
      (fun ds => (ds.target_split, ds.len))) = some ("train", 2) ∧
    (((load_dataset_and_make_vectorizer
        [⟨"ab", "X", "train"⟩, ⟨"ba", "Y", "train"⟩, ⟨"a", "X", "val"⟩]).bind
      (fun ds => ds.set_split)).map (fun ds => ds.target_split)) = some "train" := by
  cases h : load_dataset_and_make_vectorizer
      [⟨"ab", "X", "train"⟩, ⟨"ba", "Y", "train"⟩, ⟨"a", "X", "val"⟩] with
  | none =>
    have hs : (load_dataset_and_make_vectorizer
        [⟨"ab", "X", "train"⟩, ⟨"ba", "Y", "train"⟩, ⟨"a", "X", "val"⟩]).isSome
        = true := by decide
    rw [h] at hs
    simp at hs
  | some ds =>
    have h0 : SurnameDataset.init
        [⟨"ab", "X", "train"⟩, ⟨"ba", "Y", "train"⟩, ⟨"a", "X", "val"⟩]
        (SurnameVectorizer.from_dataframe
          (([⟨"ab", "X", "train"⟩, ⟨"ba", "Y", "train"⟩, ⟨"a", "X", "val"⟩] :
            List Row).filter (fun r => r.split == "train"))) = some ds := h
    have main := default_active_split_is_train _ _ ds h0
    constructor
    · simp only [Option.map_some']
      rw [main.1, main.2.2.2.1]
      decide
    · simp only [Option.some_bind]
      rw [main.2.2.2.2.2 ds]
      simp only [Option.map_some']

theorem add_token_of_mem {v : Vocabulary} {t : String} {i : Nat}
    (h : v.token_to_idx.lookup t = some i) : v.add_token t = (v, i) := by
  unfold Vocabulary.add_token
  rw [h]

/-- **C9**: `add_token` is idempotent — a repeated `add_token` returns
the index of the first add (and leaves the vocabulary unchanged),
`lookup_token` right after an add answers that same index, and a
first-time add assigns `len(token_to_idx)` (the next unused index) as the
new index, registering the token in both the forward and the inverse
map. -/
theorem add_token_idempotent (v : Vocabulary) (t : String) :
    ((v.add_token t).1.add_token t).2 = (v.add_token t).2 ∧
    ((v.add_token t).1.add_token t).1 = (v.add_token t).1 ∧
    (v.add_token t).1.lookup_token t = some ((v.add_token t).2 : Int) ∧
    (v.token_to_idx.lookup t = none →
      (v.add_token t).2 = v.token_to_idx.length ∧
      (v.add_token t).1.token_to_idx =
        v.token_to_idx ++ [(t, v.token_to_idx.length)] ∧
      (v.add_token t).1.idx_to_token =
        v.idx_to_token ++ [(v.token_to_idx.length, t)]) := by
  have hself := add_token_lookup_self v t
  have hrepeat := add_token_of_mem hself
  refine ⟨by rw [hrepeat], by rw [hrepeat], ?_, ?_⟩
  · unfold Vocabulary.lookup_token
    rw [(add_token_preserves_flags v t).1, hself]
    split_ifs <;> rfl
  · intro h
    unfold Vocabulary.add_token
    rw [h]
    exact ⟨rfl, rfl, rfl⟩

/-- `add_token_idempotent` at the fresh no-unknown vocabulary and the
token `"a"`: the first add assigns index 0 (= `len` of the empty map),
the repeat add returns 0 again, and `lookup_token` answers 0. -/
theorem add_token_idempotent_witness :
    (Vocabulary.init [] false "<UNK>").token_to_idx.lookup "a" = none ∧
    (((Vocabulary.init [] false "<UNK>").add_token "a").1.add_token "a").2 =
      ((Vocabulary.init [] false "<UNK>").add_token "a").2 ∧
    ((Vocabulary.init [] false "<UNK>").add_token "a").1.lookup_token "a" =
      some (((Vocabulary.init [] false "<UNK>").add_token "a").2 : Int) ∧
    ((Vocabulary.init [] false "<UNK>").add_token "a").2 =
      (Vocabulary.init [] false "<UNK>").token_to_idx.length := by
  have main := add_token_idempotent (Vocabulary.init [] false "<UNK>") "a"
  exact ⟨by decide, main.1, main.2.2.1, (main.2.2.2 (by decide)).1⟩

/-- **C7**: lookup error behaviour on every vocabulary reachable by the
notebook's constructions: `lookup_token` on an unregistered token returns
the unknown index when unknown-token support is enabled and raises
`KeyError` when it is not; on a registered token it returns that token's
index; `lookup_index` raises `KeyError` exactly when the queried index
was never assigned, and otherwise returns the token registered at that
index. -/
theorem lookup_error_behaviour (a : Bool) (u : String) (ts : List String)
    (t : String) (i : Nat) :
    ((buildVocab a u ts).token_to_idx.lookup t = none →
      (buildVocab a u ts).lookup_token t =
        if a = true then some (buildVocab a u ts).unk_index else none) ∧
    (∀ n : Nat, (buildVocab a u ts).token_to_idx.lookup t = some n →
      (buildVocab a u ts).lookup_token t = some (n : Int)) ∧
    (∀ s : String, (buildVocab a u ts).lookup_index i = some s ↔
      (buildVocab a u ts).token_to_idx.lookup s = some i) ∧
    ((buildVocab a u ts).lookup_index i = none ↔
      ∀ s : String, (buildVocab a u ts).token_to_idx.lookup s ≠ some i) := by
  have hv : buildVocab a u ts = canon (dedupFirst (preTokens a u ++ ts)) a u :=
    addAll_init_eq_canon a u ts
  set names := dedupFirst (preTokens a u ++ ts) with hnames
  have hnd : names.Nodup := nodup_dedupFirst _
  rw [hv]
  refine ⟨?_, ?_, ?_, ?_⟩
  · intro hmiss
    rw [lookup_forward_canon] at hmiss
    have hnot : t ∉ names := by
      intro hmem
      rw [if_pos hmem] at hmiss
      exact Option.noConfusion hmiss
    cases a with
    | true => rw [lookup_token_canon_unk, if_neg hnot]; simp
    | false => rw [lookup_token_canon_nounk, if_neg hnot]; simp
  · intro n hhit
    rw [lookup_forward_canon] at hhit
    by_cases hmem : t ∈ names
    · rw [if_pos hmem] at hhit
      rw [Option.some_inj] at hhit
      cases a with
      | true => rw [lookup_token_canon_unk, if_pos hmem, hhit]
      | false => rw [lookup_token_canon_nounk, if_pos hmem, hhit]
    · rw [if_neg hmem] at hhit
      exact absurd hhit (by simp)
  · intro s
    rw [lookup_index_canon, lookup_forward_canon]
    constructor
    · intro hget
      rw [List.getElem?_eq_some] at hget
      obtain ⟨hi, hgi⟩ := hget
      have hmem : s ∈ names := hgi ▸ List.getElem_mem hi
      rw [if_pos hmem]
      rw [Option.some_inj]
      rw [← hgi]
      exact List.indexOf_getElem hnd i hi
    · intro hlk
      by_cases hmem : s ∈ names
      · rw [if_pos hmem, Option.some_inj] at hlk
        rw [← hlk]
        exact List.getElem?_indexOf hmem
      · rw [if_neg hmem] at hlk
        exact absurd hlk (by simp)
  · rw [lookup_index_canon]
    constructor
    · intro hnone s hlk
      rw [lookup_forward_canon] at hlk
      by_cases hmem : s ∈ names
      · rw [if_pos hmem, Option.some_inj] at hlk
        rw [List.getElem?_eq_none_iff] at hnone
        have := List.indexOf_lt_length.2 hmem
        omega
      · rw [if_neg hmem] at hlk
        exact Option.noConfusion hlk
    · intro hall
      rw [List.getElem?_eq_none_iff]
      by_contra hlt
      push_neg at hlt
      have hgi : names.get ⟨i, hlt⟩ ∈ names := List.get_mem names i hlt
      refine hall (names.get ⟨i, hlt⟩) ?_
      rw [lookup_forward_canon, if_pos hgi, Option.some_inj]
      exact List.get_indexOf hnd ⟨i, hlt⟩

/-- `lookup_error_behaviour` at the vocabulary `{"<UNK>": 0, "a": 1}`:
the miss `"b"` falls back to the unknown index, the hit `"a"` answers
index 1, and `lookup_index 1` returns `"a"`. -/
theorem lookup_error_behaviour_witness :
    (buildVocab true "<UNK>" ["a"]).token_to_idx.lookup "b" = none ∧
    (buildVocab true "<UNK>" ["a"]).lookup_token "b" =
      some (buildVocab true "<UNK>" ["a"]).unk_index ∧
    (buildVocab true "<UNK>" ["a"]).token_to_idx.lookup "a" = some 1 ∧
    (buildVocab true "<UNK>" ["a"]).lookup_token "a" = some 1 ∧
    (buildVocab true "<UNK>" ["a"]).lookup_index 1 = some "a" := by
  refine ⟨by decide, ?_, by decide, ?_, ?_⟩
  · have h := (lookup_error_behaviour true "<UNK>" ["a"] "b" 1).1 (by decide)
    simpa using h
  · exact (lookup_error_behaviour true "<UNK>" ["a"] "a" 1).2.1 1 (by decide)
  · exact ((lookup_error_behaviour true "<UNK>" ["a"] "a" 1).2.2.1 "a").2 (by decide)

/-! ### Vectorization facts -/

/-- On an unknown-enabled canonical vocabulary every `lookup_token`
answers, with the position of the token on a hit and the unknown
position `0` on a miss. -/
theorem lookup_token_canon_pos (names : List String) (u : String) (c : Char) :
    (canon names true u).lookup_token (String.singleton c) =
      some (((if String.singleton c ∈ names
        then names.indexOf (String.singleton c) else 0 : Nat) : Int)) := by
  rw [lookup_token_canon_unk]
  by_cases h : String.singleton c ∈ names <;> simp [h]

theorem lookup_token_canon_pos_lt (names : List String) (hne : 0 < names.length)
    (c : Char) :
    (if String.singleton c ∈ names then names.indexOf (String.singleton c) else 0)
      < names.length := by
  by_cases h : String.singleton c ∈ names
  · rw [if_pos h]
    exact List.indexOf_lt_length.2 h
  · rw [if_neg h]
    exact hne

/-- The fold inside `vectorize`, on an unknown-enabled canonical surname
vocabulary: it never fails, preserves the vector length, and its result
holds `1` exactly at the positions `lookup_token` produced for the input
characters, leaving every other position at its starting value. -/
theorem vectorize_fold (names : List String) (u : String) (hne : 0 < names.length)
    (l : List Char) :
    ∀ w : List ℚ, w.length = names.length →
      ∃ out : List ℚ,
        (l.foldlM (fun one_hot c =>
            match (canon names true u).lookup_token (String.singleton c) with
            | none => none
            | some i =>
              if 0 ≤ i ∧ i.toNat < one_hot.length then some (one_hot.set i.toNat 1)
              else none) w) = some out ∧
        out.length = names.length ∧
        ∀ j : Nat, out[j]? =
          if ∃ c ∈ l, (canon names true u).lookup_token (String.singleton c) =
              some (j : Int)
          then some 1 else w[j]? := by
  induction l with
  | nil =>
    intro w hw
    refine ⟨w, rfl, hw, ?_⟩
    intro j
    simp
  | cons c cs ih =>
    intro w hw
    have hidx := lookup_token_canon_pos names u c
    have hlt := lookup_token_canon_pos_lt names hne c
    have hstep : (List.foldlM (fun one_hot c =>
        match (canon names true u).lookup_token (String.singleton c) with
        | none => none
        | some i =>
          if 0 ≤ i ∧ i.toNat < one_hot.length then some (one_hot.set i.toNat 1)
          else none) w (c :: cs)) =
        (List.foldlM (fun one_hot c =>
          match (canon names true u).lookup_token (String.singleton c) with
          | none => none
          | some i =>
            if 0 ≤ i ∧ i.toNat < one_hot.length then some (one_hot.set i.toNat 1)
            else none)
          (w.set (if String.singleton c ∈ names
            then names.indexOf (String.singleton c) else 0) 1) cs) := by
      have hcond : (0:Int) ≤ (((if String.singleton c ∈ names
          then names.indexOf (String.singleton c) else 0 : Nat) : Int)) ∧
          ((((if String.singleton c ∈ names
            then names.indexOf (String.singleton c) else 0 : Nat) : Int))).toNat < w.length := by
        refine ⟨Int.ofNat_nonneg _, ?_⟩
        omega
      have htn : ((((if String.singleton c ∈ names
          then names.indexOf (String.singleton c) else 0 : Nat) : Int))).toNat =
          (if String.singleton c ∈ names
            then names.indexOf (String.singleton c) else 0) := by
        omega
      have happ : (match (canon names true u).lookup_token (String.singleton c) with
          | none => none
          | some i =>
            if 0 ≤ i ∧ i.toNat < w.length then some (w.set i.toNat 1)
            else none) =
          some (w.set (if String.singleton c ∈ names
            then names.indexOf (String.singleton c) else 0) 1) := by
        rw [hidx]
        show (if _ ∧ _ then _ else none) = _
        rw [if_pos hcond, htn]
      rw [List.foldlM_cons, happ]
      rfl
    rw [hstep]
    obtain ⟨out, hout, hlen, hchar⟩ := ih
      (w.set (if String.singleton c ∈ names
        then names.indexOf (String.singleton c) else 0) 1)
      (by rw [List.length_set, hw])
    refine ⟨out, hout, hlen, ?_⟩
    intro j
    rw [hchar j]
    by_cases hcs : ∃ c' ∈ cs, (canon names true u).lookup_token
        (String.singleton c') = some (j : Int)
    · rw [if_pos hcs, if_pos ?_]
      obtain ⟨c', hc', hc'eq⟩ := hcs
      exact ⟨c', List.mem_cons_of_mem _ hc', hc'eq⟩
    · rw [if_neg hcs]
      by_cases hc : (if String.singleton c ∈ names
          then names.indexOf (String.singleton c) else 0) = j
      · subst hc
        rw [List.getElem?_set_eq_of_lt 1 (by rw [hw]; exact hlt)]
        rw [if_pos ?_]
        refine ⟨c, List.mem_cons_self c cs, ?_⟩
        rw [hidx]
      · rw [List.getElem?_set_ne hc]
        rw [if_neg ?_]
        rintro ⟨c', hc', hc'eq⟩
        rcases List.mem_cons.1 hc' with rfl | hmem
        · refine hc ?_
          rw [hidx, Option.some_inj] at hc'eq
          exact Int.ofNat_inj.1 hc'eq
        · exact hcs ⟨c', hmem, hc'eq⟩

/-- The surname vocabulary that `buildVocab true u ts` produces is never
empty: its unknown symbol occupies position 0. -/
theorem buildVocab_names_pos (u : String) (ts : List String) :
    0 < (dedupFirst (preTokens true u ++ ts)).length := by
  have hmem : u ∈ dedupFirst (preTokens true u ++ ts) := by
    rw [mem_dedupFirst]
    exact List.mem_append_left _ (List.mem_singleton_self u)
  exact List.length_pos.2 fun hnil => by simp [hnil] at hmem

/-- **C5**: vectorization is multi-hot and order- and
multiplicity-independent.  On any reachable surname vocabulary the output
exists, its length equals the vocabulary size at the time of the call,
and it is `1` exactly at the positions `lookup_token` assigns to the
input's characters and `0` everywhere else; consequently two surnames
with the same set of distinct characters vectorize identically. -/
theorem vectorize_multi_hot (vec : SurnameVectorizer) (u : String)
    (ts : List String) (hvec : vec.surname_vocab = buildVocab true u ts)
    (s₁ s₂ : String) :
    (∃ out : List ℚ, vec.vectorize s₁ = some out ∧
      out.length = vec.surname_vocab.size ∧
      ∀ j : Nat, out[j]? =
        if ∃ c ∈ s₁.toList,
            vec.surname_vocab.lookup_token (String.singleton c) = some (j : Int)
        then some 1
        else if j < vec.surname_vocab.size then some 0 else none) ∧
    ((∀ c : Char, c ∈ s₁.toList ↔ c ∈ s₂.toList) →
      vec.vectorize s₁ = vec.vectorize s₂) := by
  have hcn : buildVocab true u ts =
      canon (dedupFirst (preTokens true u ++ ts)) true u :=
    addAll_init_eq_canon true u ts
  set names := dedupFirst (preTokens true u ++ ts) with hnames
  have hne : 0 < names.length := buildVocab_names_pos u ts
  have hsize : vec.surname_vocab.size = names.length := by
    rw [hvec, hcn, canon_size]
  have hfold : ∀ s : String,
      vec.vectorize s = s.toList.foldlM (fun one_hot c =>
        match (canon names true u).lookup_token (String.singleton c) with
        | none => none
        | some i =>
          if 0 ≤ i ∧ i.toNat < one_hot.length then some (one_hot.set i.toNat 1)
          else none) (List.replicate names.length 0) := by
    intro s
    unfold SurnameVectorizer.vectorize
    rw [hvec, hcn, canon_size]
  constructor
  · obtain ⟨out, hout, hlen, hchar⟩ :=
      vectorize_fold names u hne s₁.toList (List.replicate names.length 0)
        (List.length_replicate _ _)
    refine ⟨out, by rw [hfold s₁, hout], by rw [hlen, hsize], ?_⟩
    intro j
    rw [hchar j, hsize, List.getElem?_replicate]
    rw [hvec, hcn]
  · intro hmem
    obtain ⟨out₁, hout₁, hlen₁, hchar₁⟩ :=
      vectorize_fold names u hne s₁.toList (List.replicate names.length 0)
        (List.length_replicate _ _)
    obtain ⟨out₂, hout₂, hlen₂, hchar₂⟩ :=
      vectorize_fold names u hne s₂.toList (List.replicate names.length 0)
        (List.length_replicate _ _)
    rw [hfold s₁, hfold s₂, hout₁, hout₂]
    rw [Option.some_inj]
    refine List.ext_getElem? ?_
    intro j
    rw [hchar₁ j, hchar₂ j]
    refine if_congr ?_ rfl rfl
    constructor
    · rintro ⟨c, hc, hceq⟩
      exact ⟨c, (hmem c).1 hc, hceq⟩
    · rintro ⟨c, hc, hceq⟩
      exact ⟨c, (hmem c).2 hc, hceq⟩

/-- `vectorize_multi_hot` at the vocabulary `{"@": 0, "a": 1, "b": 2}`:
`vectorize "ab" = vectorize "ba"`, `vectorize "aab" = vectorize "ab"`,
and the concrete multi-hot vector is `[0, 1, 1]`. -/
theorem vectorize_multi_hot_witness :
    (SurnameVectorizer.mk (buildVocab true "@" ["a", "b"])
        (buildVocab false "<UNK>" ["X"])).vectorize "ab" =
      (SurnameVectorizer.mk (buildVocab true "@" ["a", "b"])
        (buildVocab false "<UNK>" ["X"])).vectorize "ba" ∧
    (SurnameVectorizer.mk (buildVocab true "@" ["a", "b"])
        (buildVocab false "<UNK>" ["X"])).vectorize "aab" =
      (SurnameVectorizer.mk (buildVocab true "@" ["a", "b"])
        (buildVocab false "<UNK>" ["X"])).vectorize "ab" ∧
    (SurnameVectorizer.mk (buildVocab true "@" ["a", "b"])
        (buildVocab false "<UNK>" ["X"])).vectorize "ab" = some [0, 1, 1] := by
  refine ⟨?_, ?_, by decide⟩
  · refine (vectorize_multi_hot _ "@" ["a", "b"] rfl "ab" "ba").2 ?_
    have h1 : "ab".toList = ['a', 'b'] := rfl
    have h2 : "ba".toList = ['b', 'a'] := rfl
    intro c
    rw [h1, h2]
    simp [or_comm]
  · refine (vectorize_multi_hot _ "@" ["a", "b"] rfl "aab" "ab").2 ?_
    have h1 : "aab".toList = ['a', 'a', 'b'] := rfl
    have h2 : "ab".toList = ['a', 'b'] := rfl
    intro c
    rw [h1, h2]
    simp

/-- **C6**: degenerate inputs vectorize gracefully on any reachable
surname vocabulary: the empty string yields the all-zero vector of
length the vocabulary size, and a nonempty surname all of whose
characters are unregistered yields the vector whose only `1` sits at the
unknown token's position (every unknown character collapses there). -/
theorem vectorize_degenerate (vec : SurnameVectorizer) (u : String)
    (ts : List String) (hvec : vec.surname_vocab = buildVocab true u ts)
    (s : String) :
    vec.vectorize "" = some (List.replicate vec.surname_vocab.size 0) ∧
    ((∀ c ∈ s.toList,
        vec.surname_vocab.token_to_idx.lookup (String.singleton c) = none) →
      s ≠ "" →
      vec.vectorize s =
        some ((List.replicate vec.surname_vocab.size 0).set
          vec.surname_vocab.unk_index.toNat 1)) := by
  have hcn : buildVocab true u ts =
      canon (dedupFirst (preTokens true u ++ ts)) true u :=
    addAll_init_eq_canon true u ts
  set names := dedupFirst (preTokens true u ++ ts) with hnames
  have hne : 0 < names.length := buildVocab_names_pos u ts
  have hsize : vec.surname_vocab.size = names.length := by
    rw [hvec, hcn, canon_size]
  have hunk : vec.surname_vocab.unk_index = 0 := by
    rw [hvec, hcn, canon_unk_index]
    rfl
  constructor
  · rfl
  · intro hmiss hs
    have hsl : s.toList ≠ [] := by
      intro hh
      exact hs (String.ext (by simpa using hh))
    have hfold : vec.vectorize s = s.toList.foldlM (fun one_hot c =>
        match (canon names true u).lookup_token (String.singleton c) with
        | none => none
        | some i =>
          if 0 ≤ i ∧ i.toNat < one_hot.length then some (one_hot.set i.toNat 1)
          else none) (List.replicate names.length 0) := by
      unfold SurnameVectorizer.vectorize
      rw [hvec, hcn, canon_size]
    have hnotmem : ∀ c ∈ s.toList, String.singleton c ∉ names := by
      intro c hc hmem
      have := hmiss c hc
      rw [hvec, hcn, lookup_forward_canon, if_pos hmem] at this
      exact Option.noConfusion this
    obtain ⟨out, hout, hlen, hchar⟩ :=
      vectorize_fold names u hne s.toList (List.replicate names.length 0)
        (List.length_replicate _ _)
    rw [hfold, hout, hsize, hunk]
    rw [Option.some_inj]
    refine List.ext_getElem? ?_
    intro j
    rw [hchar j]
    have hcond : (∃ c ∈ s.toList, (canon names true u).lookup_token
        (String.singleton c) = some (j : Int)) ↔ j = 0 := by
      constructor
      · rintro ⟨c, hc, hceq⟩
        rw [lookup_token_canon_pos, if_neg (hnotmem c hc)] at hceq
        rw [Option.some_inj] at hceq
        exact_mod_cast hceq.symm
      · rintro rfl
        obtain ⟨c, hc⟩ := List.exists_mem_of_ne_nil _ hsl
        refine ⟨c, hc, ?_⟩
        rw [lookup_token_canon_pos, if_neg (hnotmem c hc)]
    by_cases hj : j = 0
    · subst hj
      rw [if_pos (hcond.2 rfl)]
      rw [show ((0:Int).toNat) = 0 from rfl]
      rw [List.getElem?_set_eq_of_lt 1 (by simpa using hne)]
    · rw [if_neg (fun hx => hj (hcond.1 hx))]
      rw [show ((0:Int).toNat) = 0 from rfl]
      rw [List.getElem?_set_ne (fun hx => hj hx.symm)]

/-- `vectorize_degenerate` at the vocabulary `{"@": 0, "a": 1, "b": 2}`:
the empty surname gives `[0, 0, 0]` and the fully-unseen surname `"zz"`
gives `[1, 0, 0]`, the single `1` at the unknown position `0`. -/
theorem vectorize_degenerate_witness :
    (SurnameVectorizer.mk (buildVocab true "@" ["a", "b"])
        (buildVocab false "<UNK>" ["X"])).vectorize "" = some [0, 0, 0] ∧
    (SurnameVectorizer.mk (buildVocab true "@" ["a", "b"])
        (buildVocab false "<UNK>" ["X"])).vectorize "zz" = some [1, 0, 0] := by
  constructor
  · have h := (vectorize_degenerate (SurnameVectorizer.mk
      (buildVocab true "@" ["a", "b"]) (buildVocab false "<UNK>" ["X"]))
      "@" ["a", "b"] rfl "zz").1
    rw [h]
    decide
  · have h := (vectorize_degenerate (SurnameVectorizer.mk
      (buildVocab true "@" ["a", "b"]) (buildVocab false "<UNK>" ["X"]))
      "@" ["a", "b"] rfl "zz").2 (by decide) (by decide)
    rw [h]
    decide

/-! ### `mapM` facts over `Option` -/

theorem mapM_some_of_forall {α β : Type} (f : α → Option β) (g : α → β) :
    ∀ l : List α, (∀ x ∈ l, f x = some (g x)) → l.mapM f = some (l.map g) := by
  intro l
  induction l with
  | nil => intro _; rfl
  | cons x xs ih =>
    intro hall
    rw [List.mapM_cons, hall x (List.mem_cons_self x xs),
      ih (fun y hy => hall y (List.mem_cons_of_mem _ hy))]
    rfl

theorem forall_some_of_mapM {α β : Type} (f : α → Option β) :
    ∀ (l : List α) (r : List β), l.mapM f = some r → ∀ x ∈ l, ∃ y, f x = some y := by
  intro l
  induction l with
  | nil => intro r _ x hx; cases hx
  | cons a as ih =>
    intro r h x hx
    rw [List.mapM_cons] at h
    cases hf : f a with
    | none => rw [hf] at h; simp at h
    | some b =>
      rw [hf] at h
      cases hm : as.mapM f with
      | none => rw [hm] at h; simp at h
      | some bs =>
        rcases List.mem_cons.1 hx with rfl | hmem
        · exact ⟨b, hf⟩
        · exact ih bs hm x hmem

/-- **C3**: top-k inference clamping.  For any reachable nationality
vocabulary, any classifier output vector of matching length (the external
engine guarantees the classifier's output width is
`len(nationality_vocab)`), and any `k` larger than the number of known
nationalities, the guarded top-k operation returns exactly
`len(nationality_vocab)` results, sorted by descending probability,
instead of raising. -/
theorem predict_topk_clamps (vec : SurnameVectorizer) (u : String)
    (ns : List String) (hvec : vec.nationality_vocab = buildVocab false u ns)
    (prediction_vector : List ℚ)
    (hlen : prediction_vector.length = vec.nationality_vocab.size)
    (k : Nat) (hk : vec.nationality_vocab.size < k) :
    ∃ results : List (String × ℚ),
      predict_topk_clamped vec prediction_vector k = some results ∧
      results.length = vec.nationality_vocab.size ∧
      results.Pairwise (fun x y => y.2 ≤ x.2) := by
  have hcn : buildVocab false u ns = canon (dedupFirst ns) false u := by
    have h := addAll_init_eq_canon false u ns
    simpa [preTokens] using h
  set names := dedupFirst ns with hnames
  have hsize : vec.nationality_vocab.size = names.length := by
    rw [hvec, hcn, canon_size]
  have hple : names.length ≤ prediction_vector.length := by
    rw [hlen, hsize]
  have hkc : (if k > vec.nationality_vocab.size
      then vec.nationality_vocab.size else k) = names.length := by
    rw [if_pos hk, hsize]
  set pairs := ((prediction_vector.enum.map (fun p => (p.2, p.1))).insertionSort
    (fun x y => y.1 ≤ x.1)).take names.length with hpairs
  have hpairslen : pairs.length = names.length := by
    rw [hpairs, List.length_take, List.length_insertionSort, List.length_map,
      List.enum_length, hlen, hsize, Nat.min_self]
  have hmemidx : ∀ p ∈ pairs, p.2 < names.length := by
    intro p hp
    have h1 : p ∈ (prediction_vector.enum.map (fun p => (p.2, p.1))).insertionSort
        (fun x y => y.1 ≤ x.1) := (List.take_sublist _ _).subset hp
    have h2 : p ∈ prediction_vector.enum.map (fun p => (p.2, p.1)) :=
      (List.perm_insertionSort _ _).subset h1
    obtain ⟨q, hq, rfl⟩ := List.mem_map.1 h2
    rw [List.mem_enum_iff_getElem?] at hq
    rw [List.getElem?_eq_some] at hq
    obtain ⟨hqlt, -⟩ := hq
    rw [hlen, hsize] at hqlt
    exact hqlt
  have hmapM := mapM_some_of_forall
    (fun p => (vec.nationality_vocab.lookup_index p.2).map
      (fun nationality => (nationality, p.1)))
    (fun p => ((names[p.2]?).getD "", p.1)) pairs ?hall
  case hall =>
    intro p hp
    have hplt := hmemidx p hp
    show Option.map (fun nationality => (nationality, p.1))
        (vec.nationality_vocab.lookup_index p.2) =
      some ((names[p.2]?).getD "", p.1)
    rw [hvec, hcn, lookup_index_canon, List.getElem?_eq_getElem hplt]
    simp
  refine ⟨pairs.map (fun p => ((names[p.2]?).getD "", p.1)), ?_, ?_, ?_⟩
  · unfold predict_topk_clamped predict_topk_nationality
    rw [hkc]
    show (match topk names.length prediction_vector with
      | none => none
      | some pairs => pairs.mapM (fun p =>
          (vec.nationality_vocab.lookup_index p.2).map
            (fun nationality => (nationality, p.1)))) =
      some (pairs.map (fun p => ((names[p.2]?).getD "", p.1)))
    unfold topk
    rw [if_pos hple]
    exact hmapM
  · rw [List.length_map, hpairslen, hsize]
  · have hsorted : pairs.Pairwise (fun x y : ℚ × Nat => y.1 ≤ x.1) := by
      refine List.Pairwise.sublist (List.take_sublist _ _) ?_
      exact List.sorted_insertionSort _ _
    exact hsorted.map _ (fun a b hab => hab)

/-- `predict_topk_clamps` at the two-nationality vocabulary
`{"X": 0, "Y": 1}`, the probability vector `[1/4, 3/4]` and the
over-large `k = 5`: exactly two results come back, best first. -/
theorem predict_topk_clamps_witness :
    predict_topk_clamped
      (SurnameVectorizer.mk (buildVocab true "@" ["a"])
        (buildVocab false "<UNK>" ["X", "Y"]))
      [mkRat 1 4, mkRat 3 4] 5 =
      some [("Y", mkRat 3 4), ("X", mkRat 1 4)] ∧
    (predict_topk_clamped
      (SurnameVectorizer.mk (buildVocab true "@" ["a"])
        (buildVocab false "<UNK>" ["X", "Y"]))
      [mkRat 1 4, mkRat 3 4] 5).map List.length = some 2 := by
  refine ⟨by decide, ?_⟩
  obtain ⟨results, heq, hlen, -⟩ := predict_topk_clamps
    (SurnameVectorizer.mk (buildVocab true "@" ["a"])
      (buildVocab false "<UNK>" ["X", "Y"]))
    "<UNK>" ["X", "Y"] rfl [mkRat 1 4, mkRat 3 4] (by decide) 5 (by decide)
  rw [heq, Option.map_some', hlen]
  decide

/-! ### `from_dataframe` decomposition -/

theorem addAll_append (v : Vocabulary) (l₁ l₂ : List String) :
    (v.addAll l₁).addAll l₂ = v.addAll (l₁ ++ l₂) := by
  unfold Vocabulary.addAll
  rw [List.foldl_append]

theorem from_dataframe_fold (df : List Row) :
    ∀ sv nv : Vocabulary,
      df.foldl (fun (vs : Vocabulary × Vocabulary) row =>
        (vs.1.addAll (row.surname.toList.map String.singleton),
         (vs.2.add_token row.nationality).1)) (sv, nv) =
      (sv.addAll (lettersOf df), nv.addAll (natsOf df)) := by
  induction df with
  | nil =>
    intro sv nv
    simp [lettersOf, natsOf, Vocabulary.addAll]
  | cons r rest ih =>
    intro sv nv
    rw [List.foldl_cons, ih]
    have hl : lettersOf (r :: rest) =
        (r.surname.toList.map String.singleton) ++ lettersOf rest := by
      simp [lettersOf]
    have hn : natsOf (r :: rest) = r.nationality :: natsOf rest := rfl
    rw [hl, hn, ← addAll_append]
    rfl

/-- `SurnameVectorizer.from_dataframe` builds exactly the two reachable
vocabularies: the letter stream into a fresh unknown-enabled vocabulary
with symbol `"@"` and the nationality stream into a fresh vocabulary
without unknown-token support. -/
theorem from_dataframe_vocabs (df : List Row) :
    SurnameVectorizer.from_dataframe df =
      ⟨buildVocab true "@" (lettersOf df), buildVocab false "<UNK>" (natsOf df)⟩ := by
  unfold buildVocab
  simp only [SurnameVectorizer.from_dataframe]
  rw [from_dataframe_fold]

theorem map_indexOf_self {names : List String} (hnd : names.Nodup) :
    names.map (fun d => ((names.indexOf d : Nat) : Int)) =
      (List.range names.length).map (fun i : Nat => (i : Int)) := by
  refine List.ext_getElem (by simp) ?_
  intro i h1 h2
  simp only [List.getElem_map, List.getElem_range]
  rw [List.indexOf_getElem hnd]

/-- **C4**: class weights are inverse corpus-wide frequencies ordered by
the nationality vocabulary's indices.  After a successful
`load_dataset_and_make_vectorizer` (vectorizer from the train split,
dataset over the full collection), `class_weights` has exactly
`len(nationality_vocab)` entries, and for every nationality `n` of the
collection the entry at `lookup_token(n)` is `1 / count(n)` where the
count ranges over the ENTIRE collection (train+val+test). -/
theorem class_weights_inverse_frequency (rows : List Row) (ds : SurnameDataset)
    (h : load_dataset_and_make_vectorizer rows = some ds) :
    ds.class_weights.length = ds.vectorizer.nationality_vocab.size ∧
    ∀ n : String, n ∈ rows.map (fun r => r.nationality) →
      ∃ kn : Nat,
        ds.vectorizer.nationality_vocab.lookup_token n = some (kn : Int) ∧
        ds.class_weights[kn]? =
          some (1 / (((rows.map (fun r => r.nationality)).count n : ℚ))) := by
  have hinit : SurnameDataset.init rows
      (SurnameVectorizer.from_dataframe
        (rows.filter (fun r => r.split == "train"))) = some ds := h
  rw [from_dataframe_vocabs] at hinit
  have hcn : buildVocab false "<UNK>"
      (natsOf (rows.filter (fun r => r.split == "train"))) =
      canon (dedupFirst (natsOf (rows.filter (fun r => r.split == "train"))))
        false "<UNK>" := by
    have h2 := addAll_init_eq_canon false "<UNK>"
      (natsOf (rows.filter (fun r => r.split == "train")))
    simpa [preTokens] using h2
  rw [hcn] at hinit
  set names := dedupFirst (natsOf (rows.filter (fun r => r.split == "train")))
    with hnamesdef
  set labels := rows.map (fun r => r.nationality) with hlabelsdef
  have hnd : names.Nodup := nodup_dedupFirst _
  have hdnd : (dedupFirst labels).Nodup := nodup_dedupFirst _
  simp only [SurnameDataset.init] at hinit
  split at hinit
  · exact absurd hinit (by simp)
  rename_i keyed hkeyed
  rw [Option.some_inj] at hinit
  subst hinit
  have hmemall : ∀ d ∈ dedupFirst labels, d ∈ names := by
    intro d hd
    have hitem : (d, labels.count d) ∈ value_counts labels := by
      simp only [value_counts]
      exact List.mem_map.2 ⟨d, hd, rfl⟩
    obtain ⟨y, hy⟩ := forall_some_of_mapM _ _ keyed hkeyed _ hitem
    dsimp only at hy
    by_contra hnot
    rw [lookup_token_canon_nounk, if_neg hnot] at hy
    simp at hy
  have hsub : ∀ d ∈ names, d ∈ dedupFirst labels := by
    intro d hd
    rw [hnamesdef, mem_dedupFirst] at hd
    rw [mem_dedupFirst]
    simp only [natsOf] at hd
    obtain ⟨r, hr, rfl⟩ := List.mem_map.1 hd
    exact List.mem_map.2 ⟨r, List.mem_of_mem_filter hr, rfl⟩
  have hperm : (dedupFirst labels).Perm names :=
    (List.perm_ext_iff_of_nodup hdnd hnd).2
      (fun a => ⟨fun ha => hmemall a ha, fun ha => hsub a ha⟩)
  have hkeyedeq : keyed = (value_counts labels).map
      (fun item => (((names.indexOf item.1 : Nat) : Int), item)) := by
    have h2 := mapM_some_of_forall
      (fun item => ((canon names false "<UNK>").lookup_token item.1).map
        (fun key => (key, item)))
      (fun item => (((names.indexOf item.1 : Nat) : Int), item))
      (value_counts labels) ?_
    · rw [hkeyed] at h2
      exact Option.some_inj.1 h2
    · intro item hitem
      have hmem : item.1 ∈ names := by
        simp only [value_counts] at hitem
        obtain ⟨d, hd, rfl⟩ := List.mem_map.1 hitem
        exact hmemall d hd
      show ((canon names false "<UNK>").lookup_token item.1).map
          (fun key => (key, item)) = some _
      rw [lookup_token_canon_nounk, if_pos hmem]
      rfl
  set sortedKeyed := keyed.insertionSort (fun x y => x.1 ≤ y.1) with hsk
  have hkfst : keyed.map Prod.fst =
      (dedupFirst labels).map (fun d => ((names.indexOf d : Nat) : Int)) := by
    rw [hkeyedeq]
    simp [value_counts, List.map_map, Function.comp]
  have hpermkeys : (sortedKeyed.map Prod.fst).Perm
      ((List.range names.length).map (fun i : Nat => (i : Int))) := by
    have p1 : (sortedKeyed.map Prod.fst).Perm (keyed.map Prod.fst) :=
      (List.perm_insertionSort _ _).map _
    rw [hkfst] at p1
    have p2 := hperm.map (fun d => ((names.indexOf d : Nat) : Int))
    have p3 := map_indexOf_self hnd
    exact p1.trans (p2.trans (p3 ▸ List.Perm.refl _))
  have hsorted1 : (sortedKeyed.map Prod.fst).Sorted (· ≤ ·) := by
    have hs := List.sorted_insertionSort
      (fun x y : Int × (String × Nat) => x.1 ≤ y.1) keyed
    exact List.Pairwise.map _ (fun a b hab => hab) hs
  have hsorted2 : (((List.range names.length).map
      (fun i : Nat => (i : Int)))).Sorted (· ≤ ·) := by
    refine List.Pairwise.map _ ?_ (List.pairwise_lt_range _)
    intro a b hab
    exact_mod_cast Nat.le_of_lt hab
  have hkeys : sortedKeyed.map Prod.fst =
      (List.range names.length).map (fun i : Nat => (i : Int)) :=
    List.eq_of_perm_of_sorted hpermkeys hsorted1 hsorted2
  have hslen : sortedKeyed.length = names.length := by
    have h2 := congrArg List.length hkeys
    simpa using h2
  constructor
  · show (((sortedKeyed.map _).map _).map _).length = (canon names false "<UNK>").size
    simp only [List.length_map, canon_size]
    exact hslen
  · intro n hn
    have hd : n ∈ dedupFirst labels := (mem_dedupFirst labels n).2 hn
    have hnmem : n ∈ names := hmemall n hd
    have hknlt : names.indexOf n < names.length := List.indexOf_lt_length.2 hnmem
    refine ⟨names.indexOf n, ?_, ?_⟩
    · show (canon names false "<UNK>").lookup_token n = some _
      rw [lookup_token_canon_nounk, if_pos hnmem]
    · have hmemk : (((names.indexOf n : Nat) : Int), (n, labels.count n)) ∈
          sortedKeyed := by
        rw [hsk]
        refine (List.perm_insertionSort _ _).mem_iff.2 ?_
        rw [hkeyedeq]
        refine List.mem_map.2 ⟨(n, labels.count n), ?_, rfl⟩
        simp only [value_counts]
        exact List.mem_map.2 ⟨n, hd, rfl⟩
      obtain ⟨j, hj, hjeq⟩ := List.mem_iff_getElem.1 hmemk
      have hjlen : j < names.length := hslen ▸ hj
      have hjm : j < (sortedKeyed.map Prod.fst).length := by
        rw [List.length_map]
        exact hj
      have h1 : (sortedKeyed.map Prod.fst).get ⟨j, hjm⟩ = (j : Int) := by
        rw [List.get_eq_getElem, List.getElem_of_eq hkeys]
        simp
      have h2 : (sortedKeyed.map Prod.fst).get ⟨j, hjm⟩ =
          ((names.indexOf n : Nat) : Int) := by
        rw [List.get_eq_getElem]
        simp only [List.getElem_map]
        rw [hjeq]
      have hjkn : j = names.indexOf n := by
        have h3 := h1.symm.trans h2
        exact_mod_cast h3
      subst hjkn
      show ((((sortedKeyed.map _).map _).map _))[names.indexOf n]? = _
      rw [List.getElem?_map, List.getElem?_map, List.getElem?_map,
        List.getElem?_eq_getElem hj, hjeq]
      rfl

/-- `class_weights_inverse_frequency` at a five-row corpus whose
nationalities are X (3 rows, vocabulary index 0) and Y (2 rows, index 1):
two weights, `1/3` at position 0 and `1/2` at position 1. -/
theorem class_weights_inverse_frequency_witness :
    ((load_dataset_and_make_vectorizer
        [⟨"a", "X", "train"⟩, ⟨"b", "Y", "train"⟩, ⟨"c", "X", "val"⟩,
         ⟨"d", "Y", "test"⟩, ⟨"e", "X", "test"⟩]).map
      (fun ds => ds.class_weights.length)) = some 2 ∧
    ((load_dataset_and_make_vectorizer
        [⟨"a", "X", "train"⟩, ⟨"b", "Y", "train"⟩, ⟨"c", "X", "val"⟩,
         ⟨"d", "Y", "test"⟩, ⟨"e", "X", "test"⟩]).map
      (fun ds => ds.class_weights[0]?)) = some (some (1 / 3 : ℚ)) ∧
    ((load_dataset_and_make_vectorizer
        [⟨"a", "X", "train"⟩, ⟨"b", "Y", "train"⟩, ⟨"c", "X", "val"⟩,
         ⟨"d", "Y", "test"⟩, ⟨"e", "X", "test"⟩]).map
      (fun ds => ds.class_weights[1]?)) = some (some (1 / 2 : ℚ)) := by
  cases h : load_dataset_and_make_vectorizer
      [⟨"a", "X", "train"⟩, ⟨"b", "Y", "train"⟩, ⟨"c", "X", "val"⟩,
       ⟨"d", "Y", "test"⟩, ⟨"e", "X", "test"⟩] with
  | none =>
    have hs : (load_dataset_and_make_vectorizer
        [⟨"a", "X", "train"⟩, ⟨"b", "Y", "train"⟩, ⟨"c", "X", "val"⟩,
         ⟨"d", "Y", "test"⟩, ⟨"e", "X", "test"⟩]).isSome = true := by decide
    rw [h] at hs
    simp at hs
  | some ds =>
    have h0 : SurnameDataset.init
        [⟨"a", "X", "train"⟩, ⟨"b", "Y", "train"⟩, ⟨"c", "X", "val"⟩,
         ⟨"d", "Y", "test"⟩, ⟨"e", "X", "test"⟩]
        (SurnameVectorizer.from_dataframe
          (([⟨"a", "X", "train"⟩, ⟨"b", "Y", "train"⟩, ⟨"c", "X", "val"⟩,
             ⟨"d", "Y", "test"⟩, ⟨"e", "X", "test"⟩] : List Row).filter
            (fun r => r.split == "train"))) = some ds := h
    have main := class_weights_inverse_frequency _ ds h
    have hvec := (init_fields h0).2.1
    refine ⟨?_, ?_, ?_⟩
    · simp only [Option.map_some']
      rw [main.1, hvec]
      decide
    · simp only [Option.map_some', Option.some_inj]
      obtain ⟨kn, hlk, hw⟩ := main.2 "X" (by decide)
      rw [hvec] at hlk
      have hlk0 : (SurnameVectorizer.from_dataframe
          (([⟨"a", "X", "train"⟩, ⟨"b", "Y", "train"⟩, ⟨"c", "X", "val"⟩,
             ⟨"d", "Y", "test"⟩, ⟨"e", "X", "test"⟩] : List Row).filter
            (fun r => r.split == "train"))).nationality_vocab.lookup_token "X" =
          some ((0 : Nat) : Int) := by decide
      have hkn : kn = 0 := by
        have h3 := hlk.symm.trans hlk0
        rw [Option.some_inj] at h3
        exact_mod_cast h3
      subst hkn
      rw [hw]
      have hcount : (([⟨"a", "X", "train"⟩, ⟨"b", "Y", "train"⟩, ⟨"c", "X", "val"⟩,
          ⟨"d", "Y", "test"⟩, ⟨"e", "X", "test"⟩] : List Row).map
            (fun r => r.nationality)).count "X" = 3 := by decide
      rw [hcount]
      norm_num
    · simp only [Option.map_some', Option.some_inj]
      obtain ⟨kn, hlk, hw⟩ := main.2 "Y" (by decide)
      rw [hvec] at hlk
      have hlk1 : (SurnameVectorizer.from_dataframe
          (([⟨"a", "X", "train"⟩, ⟨"b", "Y", "train"⟩, ⟨"c", "X", "val"⟩,
             ⟨"d", "Y", "test"⟩, ⟨"e", "X", "test"⟩] : List Row).filter
            (fun r => r.split == "train"))).nationality_vocab.lookup_token "Y" =
          some ((1 : Nat) : Int) := by decide
      have hkn : kn = 1 := by
        have h3 := hlk.symm.trans hlk1
        rw [Option.some_inj] at h3
        exact_mod_cast h3
      subst hkn
      rw [hw]
      have hcount : (([⟨"a", "X", "train"⟩, ⟨"b", "Y", "train"⟩, ⟨"c", "X", "val"⟩,
          ⟨"d", "Y", "test"⟩, ⟨"e", "X", "test"⟩] : List Row).map
            (fun r => r.nationality)).count "Y" = 2 := by decide
      rw [hcount]
      norm_num

end SurnameMLP
